import Mathlib

set_option maxHeartbeats 1000000

namespace CommonApiHooks

/-- A filesystem entry: a regular file with its text content, or a directory
with an ordered list of child entries (the order models the enumeration
order returned by `fs.readdirSync`). -/
inductive FSEntry : Type where
  | file : String → String → FSEntry
  | dir : String → List FSEntry → FSEntry

/-- The name of an entry, as it appears in its parent directory listing. -/
def entryName : FSEntry → String
  | .file n _ => n
  | .dir n _ => n

/-- Policy A resolver: shallow embedding of `findTargetDirectory` from the
CLI variant (and the textually identical `findHooksDirectory` of the editor
variant).  `pre` is the path of the directory whose entries are being
scanned (a list of path components); for each entry that is a directory, a
name equal to "src" or "app" returns that entry's full path immediately,
otherwise the search recurses into the child before continuing with the
remaining siblings, and `none` models the `null` not-found result. -/
def findTargetDirectoryA (pre : List String) : List FSEntry → Option (List String)
  | [] => none
  | .file _ _ :: rest => findTargetDirectoryA pre rest
  | .dir n ch :: rest =>
    if n = "src" ∨ n = "app" then some (pre ++ [n])
    else
      match findTargetDirectoryA (pre ++ [n]) ch with
      | some r => some r
      | none => findTargetDirectoryA pre rest
termination_by es => sizeOf es

/-- The pre-order depth-first listing of the full paths of every directory
named "src" or "app" in the tree: an entry's own path is listed before the
matches inside it, and the matches inside an entry are listed before those
of its later siblings. -/
def preorderMatches (pre : List String) : List FSEntry → List (List String)
  | [] => []
  | .file _ _ :: rest => preorderMatches pre rest
  | .dir n ch :: rest =>
    if n = "src" ∨ n = "app" then
      (pre ++ [n]) :: (preorderMatches (pre ++ [n]) ch ++ preorderMatches pre rest)
    else
      preorderMatches (pre ++ [n]) ch ++ preorderMatches pre rest
termination_by es => sizeOf es

theorem findA_eq_head (pre : List String) (es : List FSEntry) :
    findTargetDirectoryA pre es = (preorderMatches pre es).head? := by
  induction pre, es using findTargetDirectoryA.induct with
  | case1 pre => simp [findTargetDirectoryA, preorderMatches]
  | case2 pre n c rest ih => simpa [findTargetDirectoryA, preorderMatches] using ih
  | case3 pre n ch rest h =>
    simp [findTargetDirectoryA, preorderMatches, h]
  | case4 pre n ch rest h r hr ih =>
    simp [findTargetDirectoryA, preorderMatches, h, hr] at *
    cases hm : preorderMatches (pre ++ [n]) ch with
    | nil => rw [hm] at ih; simp at ih
    | cons x xs => rw [hm] at ih; simp at ih; simp [ih]
  | case5 pre n ch rest h hr ih ih2 =>
    simp [findTargetDirectoryA, preorderMatches, h, hr] at *
    cases hm : preorderMatches (pre ++ [n]) ch with
    | nil => simpa using ih2
    | cons x xs => rw [hm] at ih; simp at ih

/-- The child lookup used by the Policy B resolver: it models the compound
test `fs.existsSync(path.join(dir, name)) && fs.statSync(...).isDirectory()`
on the entry list of `dir`.  `existsSync` holds exactly when some entry of
the listing carries that name, and the stat of that (in a real filesystem,
unique) entry reports a directory exactly when the entry is a `dir`; in that
case the child's own entry list is returned. -/
def dirChild (entries : List FSEntry) (name : String) : Option (List FSEntry) :=
  match entries.find? (fun e => entryName e = name) with
  | some (FSEntry.dir _ ch) => some ch
  | _ => none

/-- Policy B resolver: shallow embedding of `findTargetDirectory` from the
newest CLI variant.  No recursion: check `root/src` (and beneath it
`root/src/app`), else `root/app`, else not found. -/
def findTargetDirectoryB (root : List String) (entries : List FSEntry) : Option (List String) :=
  match dirChild entries "src" with
  | some srcChildren =>
    match dirChild srcChildren "app" with
    | some _ => some (root ++ ["src", "app"])
    | none => some (root ++ ["src"])
  | none =>
    match dirChild entries "app" with
    | some _ => some (root ++ ["app"])
    | none => none

/-- Real directory listings never contain two entries with the same name;
trees fed to the resolvers are assumed well-formed in this sense at the
levels a claim inspects. -/
def NoDupNames (entries : List FSEntry) : Prop :=
  (entries.map entryName).Nodup

instance (entries : List FSEntry) : Decidable (NoDupNames entries) := by
  unfold NoDupNames; infer_instance

theorem dirChild_of_mem {entries : List FSEntry} {n : String} {ch : List FSEntry}
    (hnd : NoDupNames entries) (hm : FSEntry.dir n ch ∈ entries) :
    dirChild entries n = some ch := by
  induction entries with
  | nil => cases hm
  | cons e rest ih =>
    unfold NoDupNames at hnd
    simp only [List.map_cons, List.nodup_cons] at hnd
    rcases List.mem_cons.mp hm with he | he
    · subst he
      simp [dirChild, entryName]
    · have hne : entryName e ≠ n := by
        intro hc
        exact hnd.1 (hc ▸ (List.mem_map.mpr ⟨_, he, rfl⟩))
      have := ih hnd.2 he
      simp only [dirChild, List.find?_cons, decide_eq_false hne] at this ⊢
      exact this

theorem dirChild_of_not_mem {entries : List FSEntry} {n : String}
    (h : ∀ ch, FSEntry.dir n ch ∉ entries) :
    dirChild entries n = none := by
  induction entries with
  | nil => rfl
  | cons e rest ih =>
    have hrest : ∀ ch, FSEntry.dir n ch ∉ rest := by
      intro ch hc; exact h ch (List.mem_cons_of_mem _ hc)
    cases e with
    | file fn fc =>
      by_cases hfn : fn = n
      · simp [dirChild, List.find?_cons, entryName, hfn]
      · have hne : entryName (FSEntry.file fn fc) ≠ n := by simpa [entryName] using hfn
        simp only [dirChild, List.find?_cons, decide_eq_false hne]
        exact ih hrest
    | dir dn dch =>
      have hdn : dn ≠ n := by
        intro hc; exact h dch (by simp [hc])
      have hne : entryName (FSEntry.dir dn dch) ≠ n := by simpa [entryName] using hdn
      simp only [dirChild, List.find?_cons, decide_eq_false hne]
      exact ih hrest

theorem mem_preorderMatches_of_mem {entries : List FSEntry} {n : String}
    {ch : List FSEntry} (pre : List String)
    (hm : FSEntry.dir n ch ∈ entries) (hn : n = "src" ∨ n = "app") :
    (pre ++ [n]) ∈ preorderMatches pre entries := by
  induction entries with
  | nil => cases hm
  | cons e rest ih =>
    rcases List.mem_cons.mp hm with he | he
    · subst he
      simp [preorderMatches, hn]
    · cases e with
      | file fn fc => simpa [preorderMatches] using ih he
      | dir dn dch =>
        by_cases hdn : dn = "src" ∨ dn = "app"
        · simp only [preorderMatches, if_pos hdn]
          exact List.mem_cons_of_mem _ (List.mem_append_right _ (ih he))
        · simp only [preorderMatches, if_neg hdn]
          exact List.mem_append_right _ (ih he)

/-- The editor variant's `findHooksDirectory` is textually identical to the
CLI variant's Policy A `findTargetDirectory`; one definition serves both. -/
def findHooksDirectory : List String → List FSEntry → Option (List String) :=
  findTargetDirectoryA

/-- Decides whether a tree contains, at any depth, a directory named
exactly "src" or "app" (files with those names do not count). -/
def containsMarkerDir : List FSEntry → Bool
  | [] => false
  | .file _ _ :: rest => containsMarkerDir rest
  | .dir n ch :: rest =>
    if n = "src" ∨ n = "app" then true
    else containsMarkerDir ch || containsMarkerDir rest
termination_by es => sizeOf es

/-- The mutable filesystem state the writer acts on: an association list
from (component-list) paths to file contents, in directory-listing order,
plus the list of directory paths that exist. -/
structure FileSys : Type where
  files : List (List String × String)
  dirs : List (List String)
deriving DecidableEq, Repr

/-- Overwrite-or-create on the file store: `fs.writeFileSync` replaces the
content at an existing path in place and creates the entry (at the end of
the listing) when absent. -/
def storeWrite : List (List String × String) → List String → String → List (List String × String)
  | [], p, c => [(p, c)]
  | f :: rest, p, c => if f.1 = p then (p, c) :: rest else f :: storeWrite rest p c

/-- `fs.writeFileSync(p, c)` on the modelled filesystem state. -/
def writeFileSync (fs : FileSys) (p : List String) (c : String) : FileSys :=
  { fs with files := storeWrite fs.files p c }

/-- The content stored at a path, when a file exists there. -/
def lookupFile (fs : FileSys) (p : List String) : Option String :=
  (fs.files.find? (fun f => f.1 = p)).map (fun f => f.2)

/-- All nonempty prefixes of a path, shortest first: the chain of
directories `fs.mkdirSync(p, { recursive: true })` ensures exist. -/
def pathPrefixes (p : List String) : List (List String) :=
  (List.range p.length).map (fun i => p.take (i + 1))

/-- `fs.mkdirSync(p, { recursive: true })`: every missing directory along
the path is created. -/
def mkdirRecursive (fs : FileSys) (p : List String) : FileSys :=
  { fs with dirs := fs.dirs ++ (pathPrefixes p).filter (fun q => !(fs.dirs.contains q)) }

/-- `fs.existsSync(p)`: a directory or a file is present at the path. -/
def existsPath (fs : FileSys) (p : List String) : Bool :=
  fs.dirs.contains p || (fs.files.find? (fun f => f.1 = p)).isSome

/-- The writer loop common to all variants:
`Object.entries(hooks).forEach(([hookName, hookContent]) =>
fs.writeFileSync(path.join(hooksPath, hookName + ".ts"), hookContent))`.
The table is passed as a parameter (its entries in JavaScript object-literal
order); the source binds it to the static `hooks` constant. -/
def writeHooks (fs : FileSys) (hooksPath : List String) (table : List (String × String)) : FileSys :=
  table.foldl (fun acc nc => writeFileSync acc (hooksPath ++ [nc.1 ++ ".ts"]) nc.2) fs

/-- Rendering of a component-list path as the absolute path string used in
the CLI success message. -/
def joinPath (p : List String) : String :=
  "/" ++ String.intercalate "/" p

/-- Observable outcome of one CLI run: an explanatory line on standard
error together with the `process.exit` code, or the success line printed
on standard output. -/
inductive CliOutcome : Type where
  | failure : String → Nat → CliOutcome
  | success : String → CliOutcome
deriving DecidableEq, Repr

/-- `createHooksFolder` of the Policy A CLI variant: resolve from the
current directory with the recursive search; on `null`, print to standard
error and `process.exit(1)`; otherwise ensure `target/hooks` exists and
stamp every table entry. -/
def createHooksFolderCliA (cwd : List String) (tree : List FSEntry)
    (table : List (String × String)) (fs : FileSys) : FileSys × CliOutcome :=
  match findTargetDirectoryA cwd tree with
  | none =>
    (fs, CliOutcome.failure
      "No src or app folder found in the current directory or its subdirectories." 1)
  | some targetPath =>
    let hooksPath := targetPath ++ ["hooks"]
    let fs1 := if existsPath fs hooksPath then fs else mkdirRecursive fs hooksPath
    (writeHooks fs1 hooksPath table,
      CliOutcome.success ("Hooks folder created successfully in " ++ joinPath hooksPath))

/-- `createHooksFolder` of the Policy B CLI variant (the newest one):
identical to the Policy A variant except for the bounded resolver and the
wording of the error line. -/
def createHooksFolderCliB (cwd : List String) (tree : List FSEntry)
    (table : List (String × String)) (fs : FileSys) : FileSys × CliOutcome :=
  match findTargetDirectoryB cwd tree with
  | none =>
    (fs, CliOutcome.failure
      "No src, src/app, or app folder found in the current directory." 1)
  | some targetPath =>
    let hooksPath := targetPath ++ ["hooks"]
    let fs1 := if existsPath fs hooksPath then fs else mkdirRecursive fs hooksPath
    (writeHooks fs1 hooksPath table,
      CliOutcome.success ("Hooks folder created successfully in " ++ joinPath hooksPath))

/-- Observable outcome of one editor-command run: an error popup, an
information popup, or an exception escaping the command handler. -/
inductive ExtOutcome : Type where
  | errorMessage : String → ExtOutcome
  | infoMessage : String → ExtOutcome
  | crashed : ExtOutcome
deriving DecidableEq, Repr

/-- `createHooksFolder` of the editor variant.  The host's workspace API is
modelled by `ws`: `none` is `workspaceFolders === undefined` (no workspace
open), `some roots` pairs each reported root's path with that root's
directory tree.  The code guards only with `if (!workspaceFolders)`, which
is false for an empty array, and then evaluates
`workspaceFolders[0].uri.fsPath`: on a reported empty root list that
indexing yields `undefined` and the property access throws, which the
`crashed` outcome records. -/
def createHooksFolderExt (ws : Option (List (List String × List FSEntry)))
    (table : List (String × String)) (fs : FileSys) : FileSys × ExtOutcome :=
  match ws with
  | none => (fs, ExtOutcome.errorMessage "No workspace is open.")
  | some [] => (fs, ExtOutcome.crashed)
  | some (root :: _) =>
    match findHooksDirectory root.1 root.2 with
    | none => (fs, ExtOutcome.errorMessage "No src or app folder found in the workspace.")
    | some targetPath =>
      let hooksPath := targetPath ++ ["hooks"]
      let fs1 := if existsPath fs hooksPath then fs else mkdirRecursive fs hooksPath
      (writeHooks fs1 hooksPath table, ExtOutcome.infoMessage "Hooks folder created.")

/-- The exceptions the filesystem primitives can raise, tagged with the
path of the failing operation. -/
inductive IOErr : Type where
  | readdirFailed : List String → IOErr
  | mkdirFailed : List String → IOErr
  | writeFailed : List String → IOErr
deriving DecidableEq, Repr

/-- A fault oracle: which paths make `readdirSync`, `mkdirSync` or
`writeFileSync` throw during the run. -/
structure Faults : Type where
  readdirFails : List String → Bool
  mkdirFails : List String → Bool
  writeFails : List String → Bool

/-- The fault oracle under which no filesystem primitive throws. -/
def noFaults : Faults :=
  { readdirFails := fun _ => false, mkdirFails := fun _ => false, writeFails := fun _ => false }

/-- Fault-aware Policy A search over an entry list: before recursing into a
child directory the `readdirSync` on it may throw, and the exception
propagates out of every enclosing recursive call (the source has no
try/catch). -/
def findAEntries (flt : Faults) (pre : List String) : List FSEntry → Except IOErr (Option (List String))
  | [] => Except.ok none
  | .file _ _ :: rest => findAEntries flt pre rest
  | .dir n ch :: rest =>
    if n = "src" ∨ n = "app" then Except.ok (some (pre ++ [n]))
    else if flt.readdirFails (pre ++ [n]) then Except.error (IOErr.readdirFailed (pre ++ [n]))
    else
      match findAEntries flt (pre ++ [n]) ch with
      | Except.error e => Except.error e
      | Except.ok (some r) => Except.ok (some r)
      | Except.ok none => findAEntries flt pre rest
termination_by es => sizeOf es

/-- Fault-aware Policy A resolver: `fs.readdirSync(root)` itself is the
first fallible call. -/
def findTargetDirectoryAE (flt : Faults) (root : List String) (tree : List FSEntry) :
    Except IOErr (Option (List String)) :=
  if flt.readdirFails root then Except.error (IOErr.readdirFailed root)
  else findAEntries flt root tree

/-- Fault-aware writer loop: a failing `writeFileSync` throws, aborting the
remainder of the batch; earlier writes stay. -/
def writeHooksE (flt : Faults) (hooksPath : List String) :
    FileSys → List (String × String) → Except IOErr FileSys
  | fs, [] => Except.ok fs
  | fs, nc :: rest =>
    if flt.writeFails (hooksPath ++ [nc.1 ++ ".ts"]) then
      Except.error (IOErr.writeFailed (hooksPath ++ [nc.1 ++ ".ts"]))
    else writeHooksE flt hooksPath (writeFileSync fs (hooksPath ++ [nc.1 ++ ".ts"]) nc.2) rest

/-- Fault-aware `createHooksFolder` of the Policy A CLI variant.  The
source wraps none of its filesystem calls in try/catch, so an exception in
any of them leaves the function as the `Except.error` of this embedding:
only the `null` result of the resolver is handled explicitly. -/
def createHooksFolderCliAE (flt : Faults) (cwd : List String) (tree : List FSEntry)
    (table : List (String × String)) (fs : FileSys) : Except IOErr (FileSys × CliOutcome) :=
  match findTargetDirectoryAE flt cwd tree with
  | Except.error e => Except.error e
  | Except.ok none =>
    Except.ok (fs, CliOutcome.failure
      "No src or app folder found in the current directory or its subdirectories." 1)
  | Except.ok (some targetPath) =>
    let hooksPath := targetPath ++ ["hooks"]
    if existsPath fs hooksPath then
      match writeHooksE flt hooksPath fs table with
      | Except.error e => Except.error e
      | Except.ok fs2 =>
        Except.ok (fs2, CliOutcome.success
          ("Hooks folder created successfully in " ++ joinPath hooksPath))
    else if flt.mkdirFails hooksPath then Except.error (IOErr.mkdirFailed hooksPath)
    else
      match writeHooksE flt hooksPath (mkdirRecursive fs hooksPath) table with
      | Except.error e => Except.error e
      | Except.ok fs2 =>
        Except.ok (fs2, CliOutcome.success
          ("Hooks folder created successfully in " ++ joinPath hooksPath))

theorem containsMarkerDir_of_mem {es : List FSEntry} {n : String} {ch : List FSEntry}
    (hm : FSEntry.dir n ch ∈ es) (hn : n = "src" ∨ n = "app") :
    containsMarkerDir es = true := by
  induction es with
  | nil => cases hm
  | cons e rest ih =>
    rcases List.mem_cons.mp hm with he | he
    · subst he
      simp [containsMarkerDir, hn]
    · cases e with
      | file fn fc => simpa [containsMarkerDir] using ih he
      | dir dn dch =>
        by_cases hdn : dn = "src" ∨ dn = "app"
        · simp [containsMarkerDir, hdn]
        · simp [containsMarkerDir, hdn, ih he]

theorem preorderMatches_nil_of_noMarker {es : List FSEntry}
    (h : containsMarkerDir es = false) (pre : List String) :
    preorderMatches pre es = [] := by
  induction es using containsMarkerDir.induct generalizing pre with
  | case1 => simp [preorderMatches]
  | case2 n c rest ih =>
    simp only [containsMarkerDir] at h
    simpa [preorderMatches] using ih h pre
  | case3 n ch rest hn =>
    simp [containsMarkerDir, hn] at h
  | case4 n ch rest hn ih1 ih2 =>
    simp only [containsMarkerDir, if_neg hn, Bool.or_eq_false_iff] at h
    simp [preorderMatches, hn, ih1 h.1, ih2 h.2]

theorem no_marker_mem_of_noMarker {es : List FSEntry}
    (h : containsMarkerDir es = false) :
    ∀ n ch, (n = "src" ∨ n = "app") → FSEntry.dir n ch ∉ es := by
  intro n ch hn hm
  rw [containsMarkerDir_of_mem hm hn] at h
  cases h

theorem preorderMatches_sub_of_mem {es : List FSEntry} {n : String}
    {ch : List FSEntry} (pre : List String)
    (hm : FSEntry.dir n ch ∈ es) (hn : n = "src" ∨ n = "app") :
    ∀ q ∈ preorderMatches (pre ++ [n]) ch, q ∈ preorderMatches pre es := by
  intro q hq
  induction es with
  | nil => cases hm
  | cons e rest ih =>
    rcases List.mem_cons.mp hm with he | he
    · subst he
      simp only [preorderMatches, if_pos hn]
      exact List.mem_cons_of_mem _ (List.mem_append_left _ hq)
    · cases e with
      | file fn fc => simpa [preorderMatches] using ih he
      | dir dn dch =>
        by_cases hdn : dn = "src" ∨ dn = "app"
        · simp only [preorderMatches, if_pos hdn]
          exact List.mem_cons_of_mem _ (List.mem_append_right _ (ih he))
        · simp only [preorderMatches, if_neg hdn]
          exact List.mem_append_right _ (ih he)

/-- Every path produced by the pre-order match listing extends the starting
path by a nonempty suffix and ends in "src" or "app". -/
theorem preorderMatches_shape (pre : List String) (es : List FSEntry) :
    ∀ q ∈ preorderMatches pre es,
      ∃ s, s ≠ [] ∧ q = pre ++ s ∧ (q.getLast? = some "src" ∨ q.getLast? = some "app") := by
  induction pre, es using preorderMatches.induct with
  | case1 pre => simp [preorderMatches]
  | case2 pre n c rest ih => simpa [preorderMatches] using ih
  | case3 pre n ch rest hn ih1 ih2 =>
    intro q hq
    simp only [preorderMatches, if_pos hn, List.mem_cons, List.mem_append] at hq
    rcases hq with hq | hq | hq
    · subst hq
      refine ⟨[n], by simp, rfl, ?_⟩
      rcases hn with hn | hn <;> simp [hn]
    · rcases ih1 q hq with ⟨s, hs, hqs, hl⟩
      exact ⟨[n] ++ s, by simp, by simp [hqs], hl⟩
    · exact ih2 q hq
  | case4 pre n ch rest hn ih1 ih2 =>
    intro q hq
    simp only [preorderMatches, if_neg hn, List.mem_append] at hq
    rcases hq with hq | hq
    · rcases ih1 q hq with ⟨s, hs, hqs, hl⟩
      exact ⟨[n] ++ s, by simp, by simp [hqs], hl⟩
    · exact ih2 q hq

theorem storeWrite_of_absent {l : List (List String × String)} {p : List String}
    (h : p ∉ l.map Prod.fst) (c : String) :
    storeWrite l p c = l ++ [(p, c)] := by
  induction l with
  | nil => rfl
  | cons f rest ih =>
    simp only [List.map_cons, List.mem_cons] at h
    push_neg at h
    simp [storeWrite, Ne.symm h.1, ih h.2]

theorem find?_storeWrite_self (l : List (List String × String)) (p : List String) (c : String) :
    (storeWrite l p c).find? (fun f => f.1 = p) = some (p, c) := by
  induction l with
  | nil => simp [storeWrite]
  | cons f rest ih =>
    by_cases hf : f.1 = p
    · simp [storeWrite, hf]
    · simp only [storeWrite, if_neg hf, List.find?_cons, decide_eq_false hf]
      exact ih

theorem find?_storeWrite_other {q p : List String} (hne : q ≠ p)
    (l : List (List String × String)) (c : String) :
    (storeWrite l p c).find? (fun f => f.1 = q) = l.find? (fun f => f.1 = q) := by
  induction l with
  | nil => simp [storeWrite, Ne.symm hne]
  | cons f rest ih =>
    by_cases hf : f.1 = p
    · have hfq : ¬ ((p, c).1 = q) := by simpa using Ne.symm hne
      have hfq2 : ¬ (f.1 = q) := by rw [hf]; exact Ne.symm hne
      simp only [storeWrite, if_pos hf, List.find?_cons, decide_eq_false hfq,
        decide_eq_false hfq2]
    · by_cases hq : f.1 = q
      · have hsw : storeWrite (f :: rest) p c = f :: storeWrite rest p c := by
          simp [storeWrite, hf]
        rw [hsw]
        simp [List.find?_cons, hq]
      · simp only [storeWrite, if_neg hf, List.find?_cons, decide_eq_false hq]
        exact ih

theorem lookupFile_writeFileSync_self (fs : FileSys) (p : List String) (c : String) :
    lookupFile (writeFileSync fs p c) p = some c := by
  simp [lookupFile, writeFileSync, find?_storeWrite_self]

theorem lookupFile_writeFileSync_other {q p : List String} (hne : q ≠ p)
    (fs : FileSys) (c : String) :
    lookupFile (writeFileSync fs p c) q = lookupFile fs q := by
  simp [lookupFile, writeFileSync, find?_storeWrite_other hne]

theorem writeHooks_dirs (hooksPath : List String) :
    ∀ (table : List (String × String)) (fs : FileSys),
      (writeHooks fs hooksPath table).dirs = fs.dirs := by
  intro table
  induction table with
  | nil => intro fs; rfl
  | cons nc rest ih =>
    intro fs
    simpa [writeHooks, List.foldl_cons] using ih (writeFileSync fs (hooksPath ++ [nc.1 ++ ".ts"]) nc.2)

theorem writeHooks_cons (fs : FileSys) (hooksPath : List String)
    (nc : String × String) (rest : List (String × String)) :
    writeHooks fs hooksPath (nc :: rest) =
      writeHooks (writeFileSync fs (hooksPath ++ [nc.1 ++ ".ts"]) nc.2) hooksPath rest := rfl

theorem writeHooks_lookup_other (hooksPath : List String) {q : List String} :
    ∀ (table : List (String × String)) (fs : FileSys),
      q ∉ table.map (fun nc => hooksPath ++ [nc.1 ++ ".ts"]) →
      lookupFile (writeHooks fs hooksPath table) q = lookupFile fs q := by
  intro table
  induction table with
  | nil => intro fs _; rfl
  | cons nc rest ih =>
    intro fs hq
    simp only [List.map_cons, List.mem_cons] at hq
    push_neg at hq
    rw [writeHooks_cons, ih _ hq.2, lookupFile_writeFileSync_other hq.1]

theorem writeHooks_lookup_mem (hooksPath : List String) :
    ∀ (table : List (String × String)) (fs : FileSys),
      (table.map (fun nc => nc.1 ++ ".ts")).Nodup →
      ∀ n c, (n, c) ∈ table →
        lookupFile (writeHooks fs hooksPath table) (hooksPath ++ [n ++ ".ts"]) = some c := by
  intro table
  induction table with
  | nil => intro fs _ n c hm; cases hm
  | cons nc rest ih =>
    intro fs hnd n c hm
    simp only [List.map_cons, List.nodup_cons] at hnd
    rcases List.mem_cons.mp hm with he | he
    · have hnc : nc = (n, c) := he.symm
      subst hnc
      rw [writeHooks_cons]
      have hnotin : (hooksPath ++ [n ++ ".ts"]) ∉
          rest.map (fun mc => hooksPath ++ [mc.1 ++ ".ts"]) := by
        intro hc
        rcases List.mem_map.mp hc with ⟨mc, hmc, heq⟩
        have : mc.1 ++ ".ts" = n ++ ".ts" := by
          have := List.append_cancel_left heq
          simpa using this
        exact hnd.1 (this ▸ List.mem_map.mpr ⟨mc, hmc, rfl⟩)
      rw [writeHooks_lookup_other _ rest _ hnotin]
      exact lookupFile_writeFileSync_self fs _ _
    · rw [writeHooks_cons]
      exact ih _ hnd.2 n c he

theorem writeHooks_files_of_fresh (hooksPath : List String) :
    ∀ (table : List (String × String)) (fs : FileSys),
      (∀ nc ∈ table, (hooksPath ++ [nc.1 ++ ".ts"]) ∉ fs.files.map Prod.fst) →
      (table.map (fun nc => nc.1 ++ ".ts")).Nodup →
      (writeHooks fs hooksPath table).files =
        fs.files ++ table.map (fun nc => (hooksPath ++ [nc.1 ++ ".ts"], nc.2)) := by
  intro table
  induction table with
  | nil => intro fs _ _; simp [writeHooks]
  | cons nc rest ih =>
    intro fs hfresh hnd
    simp only [List.map_cons, List.nodup_cons] at hnd
    rw [writeHooks_cons]
    have habs : (hooksPath ++ [nc.1 ++ ".ts"]) ∉ fs.files.map Prod.fst :=
      hfresh nc (List.mem_cons_self _ _)
    have hfiles1 : (writeFileSync fs (hooksPath ++ [nc.1 ++ ".ts"]) nc.2).files =
        fs.files ++ [(hooksPath ++ [nc.1 ++ ".ts"], nc.2)] := by
      simp [writeFileSync, storeWrite_of_absent habs]
    have hfresh2 : ∀ mc ∈ rest, (hooksPath ++ [mc.1 ++ ".ts"]) ∉
        (writeFileSync fs (hooksPath ++ [nc.1 ++ ".ts"]) nc.2).files.map Prod.fst := by
      intro mc hmc
      rw [hfiles1]
      simp only [List.map_append, List.mem_append, List.map_cons, List.map_nil,
        List.mem_singleton]
      push_neg
      refine ⟨fun hc => hfresh mc (List.mem_cons_of_mem _ hmc) hc, ?_⟩
      intro hc
      have : mc.1 ++ ".ts" = nc.1 ++ ".ts" := by
        have := List.append_cancel_left hc
        simpa using this
      exact hnd.1 (this ▸ List.mem_map.mpr ⟨mc, hmc, rfl⟩)
    rw [ih _ hfresh2 hnd.2, hfiles1]
    simp

theorem mkdirRecursive_files (fs : FileSys) (p : List String) :
    (mkdirRecursive fs p).files = fs.files := rfl

theorem mkdirRecursive_dirs_other {d p : List String} (hd : d ∉ pathPrefixes p)
    (fs : FileSys) : d ∈ (mkdirRecursive fs p).dirs ↔ d ∈ fs.dirs := by
  simp only [mkdirRecursive, List.mem_append, List.mem_filter]
  constructor
  · rintro (h | ⟨h, _⟩)
    · exact h
    · exact absurd h hd
  · intro h; exact Or.inl h

/-- Direct membership, one level below a directory: the path is the
directory path extended by exactly one component. -/
def inDir (dir p : List String) : Bool :=
  (p.take dir.length == dir) && (p.length == dir.length + 1)

theorem inDir_append (dir : List String) (x : String) :
    inDir dir (dir ++ [x]) = true := by
  simp [inDir, List.take_left]

/-- The file entries that sit directly inside a directory. -/
def filesIn (fs : FileSys) (dir : List String) : List (List String × String) :=
  fs.files.filter (fun f => inDir dir f.1)

/-- The height of a directory tree: the number of nested `readdirSync`
calls Policy A needs below the root listing. -/
def treeHeight : List FSEntry → Nat
  | [] => 0
  | .file _ _ :: rest => treeHeight rest
  | .dir _ ch :: rest => max (treeHeight ch + 1) (treeHeight rest)
termination_by es => sizeOf es

/-- Fuel-bounded Policy A search over an entry list: recursing into a child
directory costs one unit of call-stack fuel, and `none` reports that the
budget was exhausted before the search completed. -/
def findAEntriesFuel : Nat → List String → List FSEntry → Option (Option (List String))
  | _, _, [] => some none
  | fuel, pre, .file _ _ :: rest => findAEntriesFuel fuel pre rest
  | fuel, pre, .dir n ch :: rest =>
    if n = "src" ∨ n = "app" then some (some (pre ++ [n]))
    else
      match fuel with
      | 0 => none
      | Nat.succ f2 =>
        match findAEntriesFuel f2 (pre ++ [n]) ch with
        | none => none
        | some (some r) => some (some r)
        | some none => findAEntriesFuel (Nat.succ f2) pre rest
termination_by fuel _ es => (fuel, sizeOf es)

/-- Fuel-bounded Policy A resolver: the run is granted a finite call-stack
budget, the outer call costing the first unit. -/
def findTargetDirectoryAFuel (fuel : Nat) (root : List String) (tree : List FSEntry) :
    Option (Option (List String)) :=
  match fuel with
  | 0 => none
  | Nat.succ f => findAEntriesFuel f root tree

theorem noFaults_readdir (p : List String) : noFaults.readdirFails p = false := rfl

theorem noFaults_mkdir (p : List String) : noFaults.mkdirFails p = false := rfl

theorem noFaults_write (p : List String) : noFaults.writeFails p = false := rfl

theorem findAEntriesFuel_sufficient (pre : List String) (es : List FSEntry) :
    ∀ fuel, treeHeight es ≤ fuel →
      findAEntriesFuel fuel pre es = some (findTargetDirectoryA pre es) := by
  induction pre, es using findTargetDirectoryA.induct with
  | case1 pre =>
    intro fuel h
    cases fuel <;> simp [findAEntriesFuel, findTargetDirectoryA]
  | case2 pre n c rest ih =>
    intro fuel h
    simp only [treeHeight] at h
    cases fuel with
    | zero => simpa [findAEntriesFuel, findTargetDirectoryA] using ih 0 h
    | succ f => simpa [findAEntriesFuel, findTargetDirectoryA] using ih (f + 1) h
  | case3 pre n ch rest hn =>
    intro fuel h
    cases fuel <;> simp [findAEntriesFuel, findTargetDirectoryA, hn]
  | case4 pre n ch rest hn r hr ih =>
    intro fuel h
    simp only [treeHeight, max_le_iff] at h
    obtain ⟨f2, rfl⟩ : ∃ f2, fuel = f2 + 1 :=
      ⟨fuel - 1, by omega⟩
    have hch : treeHeight ch ≤ f2 := by omega
    simp [findAEntriesFuel, findTargetDirectoryA, hn, ih f2 hch, hr]
  | case5 pre n ch rest hn hr ih ih2 =>
    intro fuel h
    simp only [treeHeight, max_le_iff] at h
    obtain ⟨f2, rfl⟩ : ∃ f2, fuel = f2 + 1 :=
      ⟨fuel - 1, by omega⟩
    have hch : treeHeight ch ≤ f2 := by omega
    have hrest : treeHeight rest ≤ f2 + 1 := by omega
    simp [findAEntriesFuel, findTargetDirectoryA, hn, ih f2 hch, hr, ih2 (f2 + 1) hrest]

theorem findAE_noFaults (pre : List String) (es : List FSEntry) :
    findAEntries noFaults pre es = Except.ok (findTargetDirectoryA pre es) := by
  induction pre, es using findTargetDirectoryA.induct with
  | case1 pre => simp [findAEntries, findTargetDirectoryA]
  | case2 pre n c rest ih => simpa [findAEntries, findTargetDirectoryA] using ih
  | case3 pre n ch rest hn => simp [findAEntries, findTargetDirectoryA, hn]
  | case4 pre n ch rest hn r hr ih =>
    simp [findAEntries, findTargetDirectoryA, hn, noFaults_readdir, ih, hr]
  | case5 pre n ch rest hn hr ih ih2 =>
    simp [findAEntries, findTargetDirectoryA, hn, noFaults_readdir, ih, hr, ih2]

theorem findTargetDirectoryAE_noFaults (root : List String) (tree : List FSEntry) :
    findTargetDirectoryAE noFaults root tree = Except.ok (findTargetDirectoryA root tree) := by
  simp [findTargetDirectoryAE, noFaults_readdir, findAE_noFaults]

theorem writeHooksE_noFaults (hooksPath : List String) :
    ∀ (table : List (String × String)) (fs : FileSys),
      writeHooksE noFaults hooksPath fs table = Except.ok (writeHooks fs hooksPath table) := by
  intro table
  induction table with
  | nil => intro fs; simp [writeHooksE, writeHooks]
  | cons nc rest ih =>
    intro fs
    rw [writeHooks_cons]
    simpa [writeHooksE, noFaults_write] using ih _

theorem findA_some_shape {root : List String} {tree : List FSEntry} {p : List String}
    (h : findTargetDirectoryA root tree = some p) :
    ∃ s, s ≠ [] ∧ p = root ++ s ∧ (p.getLast? = some "src" ∨ p.getLast? = some "app") := by
  rw [findA_eq_head] at h
  have hmem : p ∈ preorderMatches root tree := by
    cases hl : preorderMatches root tree with
    | nil => rw [hl] at h; cases h
    | cons x xs =>
      rw [hl] at h
      simp only [List.head?_cons, Option.some.injEq] at h
      simp [hl, h.symm]
  exact preorderMatches_shape root tree p hmem

theorem append_singleton_ne_self (root : List String) {s : List String} (hs : s ≠ []) :
    root ++ s ≠ root := by
  intro hc
  have hlen := congrArg List.length hc
  simp only [List.length_append] at hlen
  exact hs (List.eq_nil_of_length_eq_zero (by omega))

/-- C3: Policy A resolution is a pre-order depth-first search: it returns
the full path of the first directory entry named exactly "src" or "app"
(case-sensitive) in pre-order enumeration order — an entry is examined
before its own contents, and a child's contents before the entry's later
siblings — and returns the not-found signal exactly when the pre-order
listing of matches over the whole subtree is empty. -/
theorem claimC3_policyA_preorder_dfs (root : List String) (tree : List FSEntry) :
    findTargetDirectoryA root tree = (preorderMatches root tree).head? :=
  findA_eq_head root tree

/-- C9: Policy A resolution terminates on every finite, acyclic directory
tree: any call-stack budget exceeding the tree's height lets the
fuel-bounded recursion finish, and it computes the total model's result. -/
theorem claimC9_policyA_terminates (root : List String) (tree : List FSEntry)
    (fuel : Nat) (h : treeHeight tree < fuel) :
    findTargetDirectoryAFuel fuel root tree = some (findTargetDirectoryA root tree) := by
  obtain ⟨f, rfl⟩ : ∃ f, fuel = f + 1 := ⟨fuel - 1, by omega⟩
  simpa [findTargetDirectoryAFuel] using
    findAEntriesFuel_sufficient root tree f (by omega)

theorem claimC9_policyA_terminates_witness :
    treeHeight [FSEntry.dir "foo" [FSEntry.dir "src" []]] < 3 ∧
    findTargetDirectoryAFuel 3 ["r"] [FSEntry.dir "foo" [FSEntry.dir "src" []]] =
      some (findTargetDirectoryA ["r"] [FSEntry.dir "foo" [FSEntry.dir "src" []]]) :=
  ⟨by simp [treeHeight],
    claimC9_policyA_terminates ["r"] [FSEntry.dir "foo" [FSEntry.dir "src" []]] 3
      (by simp [treeHeight])⟩

/-- C10: under both policies a successfully resolved target is a strict
descendant of the search root whose final path component is "src" or
"app" — the root itself is never returned — and Policy B's result, when
found, is exactly one of root/src, root/src/app, root/app. -/
theorem claimC10_target_shape (root : List String) (tree : List FSEntry) (p : List String) :
    (findTargetDirectoryA root tree = some p →
      p ≠ root ∧ ∃ s, s ≠ [] ∧ p = root ++ s ∧
        (p.getLast? = some "src" ∨ p.getLast? = some "app")) ∧
    (findTargetDirectoryB root tree = some p →
      (p = root ++ ["src"] ∨ p = root ++ ["src", "app"] ∨ p = root ++ ["app"]) ∧ p ≠ root) := by
  constructor
  · intro h
    obtain ⟨s, hs, hps, hl⟩ := findA_some_shape h
    refine ⟨?_, s, hs, hps, hl⟩
    rw [hps]
    exact append_singleton_ne_self root hs
  · intro h
    unfold findTargetDirectoryB at h
    split at h
    · split at h
      · have hp : p = root ++ ["src", "app"] := (Option.some.inj h).symm
        exact ⟨Or.inr (Or.inl hp), hp ▸ append_singleton_ne_self root (by simp)⟩
      · have hp : p = root ++ ["src"] := (Option.some.inj h).symm
        exact ⟨Or.inl hp, hp ▸ append_singleton_ne_self root (by simp)⟩
    · split at h
      · have hp : p = root ++ ["app"] := (Option.some.inj h).symm
        exact ⟨Or.inr (Or.inr hp), hp ▸ append_singleton_ne_self root (by simp)⟩
      · cases h

theorem claimC10_target_shape_witness :
    ((["r", "src"] : List String) = ["r"] ++ ["src"] ∨
      (["r", "src"] : List String) = ["r"] ++ ["src", "app"] ∨
      (["r", "src"] : List String) = ["r"] ++ ["app"]) ∧
    (["r", "src"] : List String) ≠ ["r"] :=
  (claimC10_target_shape ["r"] [FSEntry.dir "src" []] ["r", "src"]).2 (by decide)

/-- C1: Policy B follows the fixed three-check precedence.  For a
well-formed root listing: when a directory child named "src" is present,
the result is root/src/app if that child in turn has a directory child
named "app" (nested src/app beats bare src, and the src family beats any
sibling app), else root/src; when no "src" directory child is present the
result is root/app if a directory child named "app" exists, and the
not-found signal otherwise. -/
theorem claimC1_policyB_precedence (root : List String) (tree : List FSEntry)
    (hnd : NoDupNames tree) :
    (∀ sc, FSEntry.dir "src" sc ∈ tree → NoDupNames sc →
      ((∃ ach, FSEntry.dir "app" ach ∈ sc) →
        findTargetDirectoryB root tree = some (root ++ ["src", "app"])) ∧
      ((∀ ach, FSEntry.dir "app" ach ∉ sc) →
        findTargetDirectoryB root tree = some (root ++ ["src"]))) ∧
    ((∀ sc, FSEntry.dir "src" sc ∉ tree) →
      ((∃ ach, FSEntry.dir "app" ach ∈ tree) →
        findTargetDirectoryB root tree = some (root ++ ["app"])) ∧
      ((∀ ach, FSEntry.dir "app" ach ∉ tree) →
        findTargetDirectoryB root tree = none)) := by
  constructor
  · intro sc hsc hndsc
    have h1 : dirChild tree "src" = some sc := dirChild_of_mem hnd hsc
    constructor
    · rintro ⟨ach, hach⟩
      have h2 : dirChild sc "app" = some ach := dirChild_of_mem hndsc hach
      simp [findTargetDirectoryB, h1, h2]
    · intro hno
      have h2 : dirChild sc "app" = none := dirChild_of_not_mem hno
      simp [findTargetDirectoryB, h1, h2]
  · intro hnosrc
    have h1 : dirChild tree "src" = none := dirChild_of_not_mem hnosrc
    constructor
    · rintro ⟨ach, hach⟩
      have h2 : dirChild tree "app" = some ach := dirChild_of_mem hnd hach
      simp [findTargetDirectoryB, h1, h2]
    · intro hno
      have h2 : dirChild tree "app" = none := dirChild_of_not_mem hno
      simp [findTargetDirectoryB, h1, h2]

theorem claimC1_policyB_precedence_witness :
    findTargetDirectoryB ["r"]
      [FSEntry.dir "src" [FSEntry.dir "app" []], FSEntry.dir "app" []] =
      some (["r"] ++ ["src", "app"]) :=
  ((claimC1_policyB_precedence ["r"]
      [FSEntry.dir "src" [FSEntry.dir "app" []], FSEntry.dir "app" []]
      (by decide)).1 [FSEntry.dir "app" []] (List.mem_cons_self _ _) (by decide)).1
    ⟨[], List.mem_cons_self _ _⟩

/-- C2 fails as stated: the tree root/foo/src contains exactly one folder
named "src" or "app" (its pre-order match listing is the singleton
root/foo/src), Policy A returns that folder's path, but Policy B — which
only inspects root/src, root/src/app and root/app — returns the not-found
signal rather than the folder's path. -/
theorem claimC2_counterexample :
    preorderMatches ["r"] [FSEntry.dir "foo" [FSEntry.dir "src" []]] = [["r", "foo", "src"]] ∧
    findTargetDirectoryA ["r"] [FSEntry.dir "foo" [FSEntry.dir "src" []]] =
      some ["r", "foo", "src"] ∧
    findTargetDirectoryB ["r"] [FSEntry.dir "foo" [FSEntry.dir "src" []]] ≠
      some ["r", "foo", "src"] := by
  refine ⟨by simp [preorderMatches], by simp [findTargetDirectoryA], by decide⟩

/-- C2 (amended): for every directory tree containing exactly one folder
named "src" or "app" at any depth (the pre-order match listing is a
singleton), Policy A returns that folder's path; Policy B returns that
folder's path when that unique folder is an immediate child of the search
root (for a well-formed root listing), and the not-found signal when no
immediate child of the root is such a folder. -/
theorem claimC2_unique_marker (root : List String) (tree : List FSEntry) (p : List String)
    (huniq : preorderMatches root tree = [p]) :
    findTargetDirectoryA root tree = some p ∧
    (NoDupNames tree → ∀ ch,
      (FSEntry.dir "src" ch ∈ tree ∨ FSEntry.dir "app" ch ∈ tree) →
      findTargetDirectoryB root tree = some p) ∧
    ((∀ n ch, (n = "src" ∨ n = "app") → FSEntry.dir n ch ∉ tree) →
      findTargetDirectoryB root tree = none) := by
  refine ⟨by rw [findA_eq_head, huniq]; rfl, ?_, ?_⟩
  · intro hnd ch hch
    rcases hch with hm | hm
    · have hp : p = root ++ ["src"] := by
        have h0 := mem_preorderMatches_of_mem root hm (Or.inl rfl)
        rw [huniq, List.mem_singleton] at h0
        exact h0.symm
      have h1 : dirChild tree "src" = some ch := dirChild_of_mem hnd hm
      have hnoapp : ∀ ach, FSEntry.dir "app" ach ∉ ch := by
        intro ach hach
        have hmem2 : ((root ++ ["src"]) ++ ["app"]) ∈ preorderMatches (root ++ ["src"]) ch :=
          mem_preorderMatches_of_mem _ hach (Or.inr rfl)
        have hmem3 := preorderMatches_sub_of_mem root hm (Or.inl rfl) _ hmem2
        rw [huniq] at hmem3
        simp only [List.mem_singleton] at hmem3
        rw [hp] at hmem3
        have hlen := congrArg List.length hmem3
        simp only [List.length_append, List.length_cons, List.length_nil] at hlen
        omega
      have h2 : dirChild ch "app" = none := dirChild_of_not_mem hnoapp
      simp [findTargetDirectoryB, h1, h2, hp]
    · have hp : p = root ++ ["app"] := by
        have h0 := mem_preorderMatches_of_mem root hm (Or.inr rfl)
        rw [huniq, List.mem_singleton] at h0
        exact h0.symm
      have hnosrc : ∀ sc, FSEntry.dir "src" sc ∉ tree := by
        intro sc hsc
        have := mem_preorderMatches_of_mem root hsc (Or.inl rfl)
        rw [huniq] at this
        simp only [List.mem_singleton] at this
        rw [hp] at this
        have := List.append_cancel_left this
        simp at this
      have h1 : dirChild tree "src" = none := dirChild_of_not_mem hnosrc
      have h2 : dirChild tree "app" = some ch := dirChild_of_mem hnd hm
      simp [findTargetDirectoryB, h1, h2, hp]
  · intro hno
    have h1 : dirChild tree "src" = none :=
      dirChild_of_not_mem (fun ch => hno "src" ch (Or.inl rfl))
    have h2 : dirChild tree "app" = none :=
      dirChild_of_not_mem (fun ch => hno "app" ch (Or.inr rfl))
    simp [findTargetDirectoryB, h1, h2]

theorem claimC2_unique_marker_witness :
    findTargetDirectoryA ["r"] [FSEntry.dir "src" []] = some ["r", "src"] ∧
    findTargetDirectoryB ["r"] [FSEntry.dir "src" []] = some ["r", "src"] := by
  have h := claimC2_unique_marker ["r"] [FSEntry.dir "src" []] ["r", "src"]
    (by simp [preorderMatches])
  exact ⟨h.1, h.2.1 (by decide) [] (Or.inl (List.mem_cons_self _ _))⟩

theorem lookupFile_mkdirRecursive (fs : FileSys) (p q : List String) :
    lookupFile (mkdirRecursive fs p) q = lookupFile fs q := by
  simp [lookupFile, mkdirRecursive]

/-- C4: on a directory tree with no folder named "src" or "app" anywhere,
both resolvers return the not-found signal and each CLI variant performs
no filesystem write at all (the state component comes back untouched),
prints its explanatory line on standard error, and exits with the non-zero
status 1. -/
theorem claimC4_no_marker_fails (cwd : List String) (tree : List FSEntry)
    (table : List (String × String)) (fs : FileSys)
    (h : containsMarkerDir tree = false) :
    findTargetDirectoryA cwd tree = none ∧
    findTargetDirectoryB cwd tree = none ∧
    createHooksFolderCliA cwd tree table fs =
      (fs, CliOutcome.failure
        "No src or app folder found in the current directory or its subdirectories." 1) ∧
    createHooksFolderCliB cwd tree table fs =
      (fs, CliOutcome.failure
        "No src, src/app, or app folder found in the current directory." 1) := by
  have hA : findTargetDirectoryA cwd tree = none := by
    rw [findA_eq_head, preorderMatches_nil_of_noMarker h]
    rfl
  have hsrc : dirChild tree "src" = none :=
    dirChild_of_not_mem (fun ch => no_marker_mem_of_noMarker h "src" ch (Or.inl rfl))
  have happ : dirChild tree "app" = none :=
    dirChild_of_not_mem (fun ch => no_marker_mem_of_noMarker h "app" ch (Or.inr rfl))
  have hB : findTargetDirectoryB cwd tree = none := by
    simp [findTargetDirectoryB, hsrc, happ]
  exact ⟨hA, hB, by simp [createHooksFolderCliA, hA], by simp [createHooksFolderCliB, hB]⟩

theorem claimC4_no_marker_fails_witness :
    createHooksFolderCliA ["empty"] [FSEntry.dir "lib" [FSEntry.file "a" "b"]] []
        { files := [], dirs := [] } =
      ({ files := [], dirs := [] }, CliOutcome.failure
        "No src or app folder found in the current directory or its subdirectories." 1) ∧
    createHooksFolderCliB ["empty"] [FSEntry.dir "lib" [FSEntry.file "a" "b"]] []
        { files := [], dirs := [] } =
      ({ files := [], dirs := [] }, CliOutcome.failure
        "No src, src/app, or app folder found in the current directory." 1) := by
  have h := claimC4_no_marker_fails ["empty"] [FSEntry.dir "lib" [FSEntry.file "a" "b"]] []
    { files := [], dirs := [] } (by simp [containsMarkerDir])
  exact ⟨h.2.2.1, h.2.2.2⟩

/-- C5: for every resolved target and every table of K entries with
distinct file names, the write leaves directly under target/hooks exactly
the K files hookName.ts in table order, each holding the corresponding
table value verbatim (starting from a state with no file directly inside
target/hooks, the "created" reading of the claim). -/
theorem claimC5_writer_stamps_table (targetPath : List String)
    (table : List (String × String)) (fs : FileSys)
    (hfresh : ∀ f ∈ fs.files, inDir (targetPath ++ ["hooks"]) f.1 = false)
    (hnd : (table.map (fun nc => nc.1 ++ ".ts")).Nodup) :
    filesIn (writeHooks fs (targetPath ++ ["hooks"]) table) (targetPath ++ ["hooks"]) =
      table.map (fun nc => ((targetPath ++ ["hooks"]) ++ [nc.1 ++ ".ts"], nc.2)) ∧
    (filesIn (writeHooks fs (targetPath ++ ["hooks"]) table)
      (targetPath ++ ["hooks"])).length = table.length ∧
    ∀ n c, (n, c) ∈ table →
      lookupFile (writeHooks fs (targetPath ++ ["hooks"]) table)
        ((targetPath ++ ["hooks"]) ++ [n ++ ".ts"]) = some c := by
  have habs : ∀ nc ∈ table,
      ((targetPath ++ ["hooks"]) ++ [nc.1 ++ ".ts"]) ∉ fs.files.map Prod.fst := by
    intro nc _ hc
    rcases List.mem_map.mp hc with ⟨f, hf, heq⟩
    have hfalse := hfresh f hf
    rw [heq, inDir_append] at hfalse
    cases hfalse
  have hfiles := writeHooks_files_of_fresh (targetPath ++ ["hooks"]) table fs habs hnd
  have hmain : filesIn (writeHooks fs (targetPath ++ ["hooks"]) table)
      (targetPath ++ ["hooks"]) =
      table.map (fun nc => ((targetPath ++ ["hooks"]) ++ [nc.1 ++ ".ts"], nc.2)) := by
    unfold filesIn
    rw [hfiles, List.filter_append]
    have h1 : fs.files.filter (fun f => inDir (targetPath ++ ["hooks"]) f.1) = [] := by
      rw [List.filter_eq_nil_iff]
      intro f hf
      simp [hfresh f hf]
    have h2 : (table.map (fun nc => ((targetPath ++ ["hooks"]) ++ [nc.1 ++ ".ts"], nc.2))).filter
        (fun f => inDir (targetPath ++ ["hooks"]) f.1) =
        table.map (fun nc => ((targetPath ++ ["hooks"]) ++ [nc.1 ++ ".ts"], nc.2)) := by
      rw [List.filter_eq_self]
      intro f hf
      rcases List.mem_map.mp hf with ⟨nc, _, rfl⟩
      simpa using inDir_append (targetPath ++ ["hooks"]) (nc.1 ++ ".ts")
    rw [h1, h2, List.nil_append]
  refine ⟨hmain, by rw [hmain, List.length_map], ?_⟩
  exact writeHooks_lookup_mem (targetPath ++ ["hooks"]) table fs hnd

theorem claimC5_writer_stamps_table_witness :
    filesIn (writeHooks { files := [(["proj", "readme"], "hi")], dirs := [] }
        (["proj", "src"] ++ ["hooks"])
        [("useDebounce", "d"), ("useThrottle", "t")]) (["proj", "src"] ++ ["hooks"]) =
      [((["proj", "src"] ++ ["hooks"]) ++ ["useDebounce" ++ ".ts"], "d"),
        ((["proj", "src"] ++ ["hooks"]) ++ ["useThrottle" ++ ".ts"], "t")] ∧
    (filesIn (writeHooks { files := [(["proj", "readme"], "hi")], dirs := [] }
        (["proj", "src"] ++ ["hooks"])
        [("useDebounce", "d"), ("useThrottle", "t")]) (["proj", "src"] ++ ["hooks"])).length = 2 := by
  have h := claimC5_writer_stamps_table ["proj", "src"]
    [("useDebounce", "d"), ("useThrottle", "t")]
    { files := [(["proj", "readme"], "hi")], dirs := [] } (by decide) (by decide)
  exact ⟨h.1, h.2.1⟩

/-- C6: the writer's side effects are exactly the creation of the
target/hooks directory chain and the K table writes: the content (or
absence) of every path other than the K written file paths is unchanged,
and directory existence is unchanged off the target/hooks prefix chain.
In particular pre-existing files inside target/hooks with other names keep
their content. -/
theorem claimC6_writer_frame (cwd : List String) (tree : List FSEntry)
    (table : List (String × String)) (fs : FileSys) (targetPath : List String)
    (hres : findTargetDirectoryB cwd tree = some targetPath) :
    (∀ p, p ∉ table.map (fun nc => (targetPath ++ ["hooks"]) ++ [nc.1 ++ ".ts"]) →
      lookupFile (createHooksFolderCliB cwd tree table fs).1 p = lookupFile fs p) ∧
    (∀ d, d ∉ pathPrefixes (targetPath ++ ["hooks"]) →
      (d ∈ (createHooksFolderCliB cwd tree table fs).1.dirs ↔ d ∈ fs.dirs)) := by
  have hout : (createHooksFolderCliB cwd tree table fs).1 =
      writeHooks
        (if existsPath fs (targetPath ++ ["hooks"]) then fs
          else mkdirRecursive fs (targetPath ++ ["hooks"]))
        (targetPath ++ ["hooks"]) table := by
    simp [createHooksFolderCliB, hres]
  constructor
  · intro p hp
    rw [hout, writeHooks_lookup_other _ table _ hp]
    by_cases hex : existsPath fs (targetPath ++ ["hooks"])
    · rw [if_pos hex]
    · rw [if_neg hex, lookupFile_mkdirRecursive]
  · intro d hd
    rw [hout, writeHooks_dirs]
    by_cases hex : existsPath fs (targetPath ++ ["hooks"])
    · rw [if_pos hex]
    · rw [if_neg hex]
      exact mkdirRecursive_dirs_other hd fs

theorem claimC6_writer_frame_witness :
    lookupFile (createHooksFolderCliB ["r"] [FSEntry.dir "src" []] [("useDebounce", "d")]
        { files := [(["r", "src", "hooks", "keep.ts"], "old")], dirs := [["r"]] }).1
      ["r", "src", "hooks", "keep.ts"] =
      lookupFile { files := [(["r", "src", "hooks", "keep.ts"], "old")], dirs := [["r"]] }
        ["r", "src", "hooks", "keep.ts"] ∧
    (["x"] ∈ (createHooksFolderCliB ["r"] [FSEntry.dir "src" []] [("useDebounce", "d")]
        { files := [(["r", "src", "hooks", "keep.ts"], "old")], dirs := [["r"]] }).1.dirs ↔
      ["x"] ∈ ({ files := [(["r", "src", "hooks", "keep.ts"], "old")], dirs := [["r"]] } : FileSys).dirs) := by
  have h := claimC6_writer_frame ["r"] [FSEntry.dir "src" []] [("useDebounce", "d")]
    { files := [(["r", "src", "hooks", "keep.ts"], "old")], dirs := [["r"]] }
    ["r", "src"] (by decide)
  exact ⟨h.1 ["r", "src", "hooks", "keep.ts"] (by decide), h.2 ["x"] (by decide)⟩

/-- C7 fails as stated: when `fs.readdirSync` throws on the starting
directory, the run of the CLI `createHooksFolder` ends in the raw
exception — no handler converts it to a human-readable message, so the
claim that every failure is caught at the operation boundary is false at
this input. -/
theorem claimC7_counterexample :
    createHooksFolderCliAE
        { readdirFails := fun _ => true, mkdirFails := fun _ => false,
          writeFails := fun _ => false }
        ["proj"] [] [] { files := [], dirs := [] } =
      Except.error (IOErr.readdirFailed ["proj"]) ∧
    (createHooksFolderCliAE
        { readdirFails := fun _ => true, mkdirFails := fun _ => false,
          writeFails := fun _ => false }
        ["proj"] [] [] { files := [], dirs := [] }).isOk = false :=
  ⟨rfl, rfl⟩

/-- C7 (amended): only the resolver's not-found result is handled at the
operation boundary — converted to a single stderr line plus exit code 1 —
while an IOError raised while listing a directory, creating the output
folder, or writing a file is not caught anywhere: the source has no
try/catch, so the exception leaves `createHooksFolder` unchanged.  When no
filesystem primitive fails, the run completes with the total model's
result. -/
theorem claimC7_error_flow (flt : Faults) (cwd : List String) (tree : List FSEntry)
    (table : List (String × String)) (fs : FileSys) :
    (findTargetDirectoryAE flt cwd tree = Except.ok none →
      createHooksFolderCliAE flt cwd tree table fs =
        Except.ok (fs, CliOutcome.failure
          "No src or app folder found in the current directory or its subdirectories." 1)) ∧
    (∀ e, findTargetDirectoryAE flt cwd tree = Except.error e →
      createHooksFolderCliAE flt cwd tree table fs = Except.error e) ∧
    (∀ t, findTargetDirectoryAE flt cwd tree = Except.ok (some t) →
      existsPath fs (t ++ ["hooks"]) = false → flt.mkdirFails (t ++ ["hooks"]) = true →
      createHooksFolderCliAE flt cwd tree table fs =
        Except.error (IOErr.mkdirFailed (t ++ ["hooks"]))) ∧
    (∀ t e, findTargetDirectoryAE flt cwd tree = Except.ok (some t) →
      existsPath fs (t ++ ["hooks"]) = true →
      writeHooksE flt (t ++ ["hooks"]) fs table = Except.error e →
      createHooksFolderCliAE flt cwd tree table fs = Except.error e) ∧
    createHooksFolderCliAE noFaults cwd tree table fs =
      Except.ok (createHooksFolderCliA cwd tree table fs) := by
  refine ⟨?_, ?_, ?_, ?_, ?_⟩
  · intro h
    simp [createHooksFolderCliAE, h]
  · intro e h
    simp [createHooksFolderCliAE, h]
  · intro t h hex hmk
    simp [createHooksFolderCliAE, h, hex, hmk]
  · intro t e h hex hw
    simp [createHooksFolderCliAE, h, hex, hw]
  · cases hfind : findTargetDirectoryA cwd tree with
    | none =>
      simp [createHooksFolderCliAE, createHooksFolderCliA,
        findTargetDirectoryAE_noFaults, hfind]
    | some t =>
      by_cases hex : existsPath fs (t ++ ["hooks"])
      · simp [createHooksFolderCliAE, createHooksFolderCliA,
          findTargetDirectoryAE_noFaults, hfind, hex, writeHooksE_noFaults]
      · simp [createHooksFolderCliAE, createHooksFolderCliA,
          findTargetDirectoryAE_noFaults, hfind, hex, writeHooksE_noFaults, noFaults_mkdir]

theorem claimC7_error_flow_witness :
    createHooksFolderCliAE noFaults ["empty"] [] [] { files := [], dirs := [] } =
      Except.ok ({ files := [], dirs := [] }, CliOutcome.failure
        "No src or app folder found in the current directory or its subdirectories." 1) :=
  (claimC7_error_flow noFaults ["empty"] [] [] { files := [], dirs := [] }).1
    (by simp [findTargetDirectoryAE, findAEntries, noFaults_readdir])

/-- C8 fails as stated: when the workspace API reports zero roots as an
empty array, the editor operation does not fail with the "No workspace is
open." message — the `!workspaceFolders` guard is false on an empty array
and the subsequent indexing crashes the command instead. -/
theorem claimC8_counterexample :
    createHooksFolderExt (some []) [] { files := [], dirs := [] } =
      ({ files := [], dirs := [] }, ExtOutcome.crashed) ∧
    ExtOutcome.crashed ≠ ExtOutcome.errorMessage "No workspace is open." :=
  ⟨rfl, by decide⟩

/-- C8 (amended): when the host's workspace API reports no workspace at
all (the `undefined` case, modelled as `none`), the editor operation fails
immediately with the user-facing "No workspace is open." message, leaving
the filesystem untouched — no traversal is even possible since no root
tree is supplied — but when the API reports an empty root list the
`!workspaceFolders` guard does not fire and the indexing
`workspaceFolders[0].uri.fsPath` throws instead: the operation crashes
without the message (still without any write). -/
theorem claimC8_no_workspace (table : List (String × String)) (fs : FileSys)
    (ws : Option (List (List String × List FSEntry))) :
    (ws = none →
      createHooksFolderExt ws table fs = (fs, ExtOutcome.errorMessage "No workspace is open.")) ∧
    (ws = some [] → createHooksFolderExt ws table fs = (fs, ExtOutcome.crashed)) := by
  constructor
  · rintro rfl
    rfl
  · rintro rfl
    rfl

theorem claimC8_no_workspace_witness :
    createHooksFolderExt none [("useDebounce", "d")] { files := [], dirs := [] } =
      ({ files := [], dirs := [] }, ExtOutcome.errorMessage "No workspace is open.") :=
  (claimC8_no_workspace [("useDebounce", "d")] { files := [], dirs := [] } none).1 rfl

end CommonApiHooks
